import Mathlib

/-!
Verification of the croct-tech/json-pointer-js JSON Pointer library
(RFC 6901 pointers and relative JSON pointers).

The TypeScript sources are shallowly embedded: `JsonValue` trees become the
inductive `Json`, pointer segments become `Seg` (JS numbers restricted to
integers, which is the range all construction paths produce), thrown errors
become the `PErr` sum carried in `Except`, and in-place mutation of the tree
becomes explicit state passing (`set`/`unset` return the updated tree,
rebuilt along the already-resolved parent path by `replaceAt`).
-/

namespace JPtr

/-- A pointer segment: a JS number (integer-valued) or a string key.
Mirrors `JsonPointerSegment = string | number`.  Fractional JS numbers are
not modelled; every construction path either rejects them
(`Number.isSafeInteger`) or cannot produce them. -/
inductive Seg where
  | i (n : Int)
  | s (str : String)
deriving DecidableEq, Repr

/-- A JSON value tree (`JsonValue` from the library's typing): scalars,
dense arrays and insertion-ordered objects. -/
inductive Json where
  | null
  | bool (b : Bool)
  | num (n : Int)
  | str (s : String)
  | arr (elems : List Json)
  | obj (fields : List (String × Json))
deriving Repr

/-- The error taxonomy: `InvalidSyntaxError`, `InvalidReferenceError`,
`JsonPointerError` and the two `throw new Error(...)` sites in `set`. -/
inductive PErr where
  | invalidSyntax (msg : String)
  | invalidReference (msg : String)
  | pointerError (msg : String)
  | jsError (msg : String)
deriving DecidableEq, Repr

/-- `Number.MAX_SAFE_INTEGER`. -/
def maxSafeInt : Int := 9007199254740991

/-- A traversal entry `[JsonPointerSegment | null, JsonValue]`. -/
abbrev Entry := Option Seg × Json

/-- JS template interpolation of a segment (``${segment}``). -/
def segStr : Seg → String
  | .i n => toString n
  | .s str => str

/-- The regex test `/^\d+$/` of `normalizeSegment`. -/
def isDigitsStr (s : String) : Bool := s.length > 0 && s.data.all Char.isDigit

/-- Exact decimal value of a digit string.  `Number.parseInt` rounds values
above 2^53 to the nearest double; the claims below only ever inspect whether
the parsed value is inside the safe-integer range, which rounding does not
change, so the exact value is used. -/
def digitsToNat (cs : List Char) : Nat :=
  cs.foldl (fun acc c => acc * 10 + (c.toNat - '0'.toNat)) 0

/-- `JsonPointer.normalizeSegment` on a raw string: digit-only strings are
parsed as integers, everything else stays a string key. -/
def normalizeSegmentStr (s : String) : Seg :=
  if isDigitsStr s then .i (digitsToNat s.data) else .s s

/-- `JsonPointer.normalizeSegment` as applied by `JsonPointer.from` to an
already-typed segment: JS coerces the argument to a string for the regex
test, which on an integer-valued number round-trips to the same value, so
numeric segments pass through unchanged. -/
def normSeg : Seg → Seg
  | .i n => .i n
  | .s str => normalizeSegmentStr str

/-- Global replacement of `~1` by `/` (the regex `replace(/~1/g, '/')`):
left-to-right, non-overlapping. -/
def unescTilde1 : List Char → List Char
  | '~' :: '1' :: rest => '/' :: unescTilde1 rest
  | c :: rest => c :: unescTilde1 rest
  | [] => []

/-- Global replacement of `~0` by `~` (the regex `replace(/~0/g, '~')`). -/
def unescTilde0 : List Char → List Char
  | '~' :: '0' :: rest => '~' :: unescTilde0 rest
  | c :: rest => c :: unescTilde0 rest
  | [] => []

/-- `segment.replace('~', '~0')`: a JS string-pattern `replace` rewrites only
the FIRST occurrence. -/
def escFirstTilde : List Char → List Char
  | '~' :: rest => '~' :: '0' :: rest
  | c :: rest => c :: escFirstTilde rest
  | [] => []

/-- `.replace('/', '~1')`: again only the first occurrence. -/
def escFirstSlash : List Char → List Char
  | '/' :: rest => '~' :: '1' :: rest
  | c :: rest => c :: escFirstSlash rest
  | [] => []

/-- `JsonPointer.unescapeSegment`. -/
def unescapeSegment (s : String) : Seg :=
  match normalizeSegmentStr s with
  | .i n => .i n
  | .s _ => .s (String.mk (unescTilde0 (unescTilde1 s.data)))

/-- `JsonPointer.escapeSegment`: numbers print decimally; strings get the
first `~` rewritten to `~0` and then the first `/` of the result rewritten
to `~1` (the source's own comment intends every occurrence, but the JS
string-pattern `replace` only rewrites the first one). -/
def escapeSegment : Seg → String
  | .i n => toString n
  | .s str => String.mk (escFirstSlash (escFirstTilde str.data))

/-- `split('/')` on the character list: splitting the empty string yields
one empty piece, exactly as in JS. -/
def splitOnSlash : List Char → List (List Char)
  | [] => [[]]
  | '/' :: rest => [] :: splitOnSlash rest
  | c :: rest =>
    match splitOnSlash rest with
    | piece :: pieces => (c :: piece) :: pieces
    | [] => [[c]]

/-- The regex test `/~(?![0-1])/`: some `~` not followed by `0` or `1`. -/
def hasInvalidEscape : List Char → Bool
  | '~' :: c :: rest =>
    if c = '0' ∨ c = '1' then hasInvalidEscape (c :: rest) else true
  | ['~'] => true
  | _ :: rest => hasInvalidEscape rest
  | [] => false

/-- `JsonPointer.toString`: the root prints as the empty string, otherwise
`/` followed by the escaped segments joined with `/`. -/
def toStringPtr (segs : List Seg) : String :=
  if segs.isEmpty then ""
  else "/" ++ String.intercalate "/" (segs.map escapeSegment)

/-- `JsonPointer.parse`.  Note the order of the two syntax checks (escape
sequences are validated before the leading slash) and that the result is
built with the raw constructor: no integer range check happens here. -/
def parse (path : String) : Except PErr (List Seg) :=
  if path.length = 0 then .ok []
  else if hasInvalidEscape path.data then
    .error (.invalidSyntax ("Invalid escape sequence in \"" ++ path ++ "\"."))
  else if path.data.head? ≠ some '/' then
    .error (.invalidSyntax
      ("A non-root pointer must start with a slash, actual \"" ++ path ++ "\"."))
  else
    .ok ((splitOnSlash (path.data.drop 1)).map (fun cs => unescapeSegment (String.mk cs)))

/-- The validation loop of `JsonPointer.fromSegments`: the first numeric
segment that is negative or not a safe integer aborts with a syntax error
naming it. -/
def badSeg : Seg → Bool
  | .i n => n < 0 || n > maxSafeInt
  | .s _ => false

/-- `JsonPointer.fromSegments`. -/
def fromSegments (segs : List Seg) : Except PErr (List Seg) :=
  match segs.find? badSeg with
  | some (.i n) =>
    .error (.invalidSyntax ("Invalid integer segment \"" ++ toString n ++ "\"."))
  | _ => .ok segs

/-- `JsonPointer.from` on an array argument: each element is normalized and
the result range-checked. -/
def fromList (segs : List Seg) : Except PErr (List Seg) :=
  fromSegments (segs.map normSeg)

/-- `JsonPointer.from` on a number argument. -/
def fromNumber (n : Int) : Except PErr (List Seg) :=
  fromSegments [.i n]

/-- `JsonPointer.joinedWith` (the argument already normalized to a pointer):
joining the root pointer returns `this` unchanged, otherwise the
concatenation is re-validated by `fromSegments`. -/
def joinedWith (a b : List Seg) : Except PErr (List Seg) :=
  if b.isEmpty then .ok a else fromSegments (a ++ b)

/-- `typeof value === 'object' && value !== null` (objects and arrays). -/
def isStructure : Json → Bool
  | .arr _ => true
  | .obj _ => true
  | _ => false

/-- Object property read (`parent[segment]` on the first matching key; JS
objects carry unique keys, so first-match semantics coincide). -/
def objGet (fs : List (String × Json)) (k : String) : Option Json :=
  (fs.find? (fun p => p.1 = k)).map (fun p => p.2)

/-- Object property write: an existing key keeps its position, a new key is
appended (JS insertion order). -/
def objSet (fs : List (String × Json)) (k : String) (v : Json) : List (String × Json) :=
  match fs with
  | [] => [(k, v)]
  | (k', v') :: rest => if k' = k then (k, v) :: rest else (k', v') :: objSet rest k v

/-- `delete parent[segment]`. -/
def objDelete (fs : List (String × Json)) (k : String) : List (String × Json) :=
  match fs with
  | [] => []
  | (k', v') :: rest => if k' = k then rest else (k', v') :: objDelete rest k

/-- The body of `JsonPointer.traverse`: `full` and `i` only feed the
`this.truncatedAt(i)` interpolations in the error messages (always in range
here, so the truncation is the plain prefix).  Negative integer segments
cannot occur in a constructed pointer (every construction path range-checks
or produces naturals), so that unreachable branch is mapped to the same
out-of-bounds error. -/
def traverseAux (full : List Seg) : Nat → List Seg → Json → Except PErr (List Entry)
  | _, [], _ => .ok []
  | i, sg :: rest, cur =>
    if ¬ isStructure cur then
      .error (.invalidReference
        ("Cannot read value at \"" ++ toStringPtr (full.take i) ++ "\"."))
    else
      match cur with
      | .arr elems =>
        match sg with
        | .s str =>
          if str = "-" then
            .error (.invalidReference
              ("Index " ++ toString elems.length ++ " is out of bounds at \""
                ++ toStringPtr (full.take i) ++ "\"."))
          else
            .error (.invalidReference
              ("Expected an object at \"" ++ toStringPtr (full.take i)
                ++ "\", got an array."))
        | .i n =>
          if n ≥ (elems.length : Int) ∨ n < 0 then
            .error (.invalidReference
              ("Index " ++ toString n ++ " is out of bounds at \""
                ++ toStringPtr (full.take i) ++ "\"."))
          else
            let child := elems.getD n.toNat .null
            match traverseAux full (i + 1) rest child with
            | .error e => .error e
            | .ok es => .ok ((some sg, child) :: es)
      | .obj fs =>
        match sg with
        | .i _ =>
          .error (.invalidReference
            ("Expected array at \"" ++ toStringPtr (full.take i) ++ "\", got object."))
        | .s k =>
          match objGet fs k with
          | none =>
            .error (.invalidReference
              ("Property \"" ++ k ++ "\" does not exist at \""
                ++ toStringPtr (full.take i) ++ "\"."))
          | some child =>
            match traverseAux full (i + 1) rest child with
            | .error e => .error e
            | .ok es => .ok ((some sg, child) :: es)
      | _ =>
        -- unreachable: `isStructure cur` holds
        .error (.invalidReference
          ("Cannot read value at \"" ++ toStringPtr (full.take i) ++ "\"."))

/-- `JsonPointer.traverse`: yields the root entry first, then one entry per
segment. -/
def traverse (segs : List Seg) (root : Json) : Except PErr (List Entry) :=
  match traverseAux segs 0 segs root with
  | .error e => .error e
  | .ok es => .ok ((none, root) :: es)

/-- `JsonPointer.get`: drains `traverse` and returns the last entry's value
(the entry list is never empty, so the default never fires). -/
def get (segs : List Seg) (root : Json) : Except PErr Json :=
  match traverse segs root with
  | .error e => .error e
  | .ok es => .ok ((es.getLastD (none, root)).2)

/-- `JsonPointer.has`: `get` wrapped in try/catch. -/
def hasPtr (segs : List Seg) (root : Json) : Bool :=
  match get segs root with
  | .ok _ => true
  | .error _ => false

/-- Functional rendering of in-place mutation through the resolved parent
alias: replace the subtree at `path` (which `get` already resolved) by
`newV`.  Returns `none` only on an unresolvable path. -/
def replaceAt : List Seg → Json → Json → Option Json
  | [], _, newV => some newV
  | sg :: rest, cur, newV =>
    match cur, sg with
    | .arr elems, .i n =>
      if h : 0 ≤ n ∧ n.toNat < elems.length then
        (replaceAt rest (elems.get ⟨n.toNat, h.2⟩) newV).map
          (fun c => .arr (elems.set n.toNat c))
      else none
    | .obj fs, .s k =>
      match objGet fs k with
      | some child => (replaceAt rest child newV).map (fun c => .obj (objSet fs k c))
      | none => none
    | _, _ => none

/-- The array assignment `parent[segment] = value` under the guard
`segment <= parent.length`: in range overwrites, at the length appends. -/
def arrWrite (elems : List Json) (n : Int) (v : Json) : List Json :=
  if n.toNat < elems.length then elems.set n.toNat v else elems ++ [v]

/-- `JsonPointer.set` (state-passing: returns the updated root).  The parent
is resolved with `get` on the parent pointer and the mutated parent written
back along the same path (`replaceAt` cannot fail there, so the `getD`
default never fires). -/
def set (segs : List Seg) (root : Json) (value : Json) : Except PErr Json :=
  match segs.getLast? with
  | none => .error (.pointerError "Cannot set root value.")
  | some sg =>
    let parentSegs := segs.dropLast
    match get parentSegs root with
    | .error e => .error e
    | .ok parent =>
      if ¬ isStructure parent then
        .error (.pointerError
          ("Cannot set value at \"" ++ toStringPtr parentSegs ++ "\"."))
      else
        match sg with
        | .i n =>
          match parent with
          | .arr elems =>
            if n > (elems.length : Int) then
              .error (.invalidReference
                ("Index " ++ toString n ++ " is out of bounds at \""
                  ++ toStringPtr parentSegs ++ "\"."))
            else
              .ok ((replaceAt parentSegs root (.arr (arrWrite elems n value))).getD root)
          | _ => .error (.jsError
              ("Expected array at \"" ++ toStringPtr parentSegs ++ "\", got object."))
        | .s str =>
          if str = "-" then
            match parent with
            | .arr elems =>
              .ok ((replaceAt parentSegs root (.arr (elems ++ [value]))).getD root)
            | _ => .error (.jsError
                ("Expected array at \"" ++ toStringPtr parentSegs ++ "\", got object."))
          else
            match parent with
            | .arr _ => .error (.jsError
                ("Expected an object at \"" ++ toStringPtr parentSegs ++ "\", got an array."))
            | .obj fs =>
              .ok ((replaceAt parentSegs root (.obj (objSet fs str value))).getD root)
            | _ => .error (.jsError
                ("Expected an object at \"" ++ toStringPtr parentSegs ++ "\", got an array."))

/-- `JsonPointer.unset` (state-passing: returns the removed value, or `none`
for the `undefined` no-op result, together with the updated root). -/
def unset (segs : List Seg) (root : Json) : Except PErr (Option Json × Json) :=
  match segs.getLast? with
  | none => .error (.invalidReference "Cannot unset the root value.")
  | some sg =>
    let parentSegs := segs.dropLast
    match get parentSegs root with
    | .error _ => .ok (none, root)
    | .ok parent =>
      if ¬ isStructure parent then .ok (none, root)
      else
        match sg with
        | .i n =>
          match parent with
          | .arr elems =>
            if h : 0 ≤ n ∧ n.toNat < elems.length then
              let v := elems.get ⟨n.toNat, h.2⟩
              .ok (some v,
                (replaceAt parentSegs root (.arr (elems.eraseIdx n.toNat))).getD root)
            else
              -- `segment >= parent.length` returns undefined; a negative
              -- index is unreachable for constructed pointers
              .ok (none, root)
          | _ => .ok (none, root)
        | .s k =>
          match parent with
          | .arr _ => .ok (none, root)
          | .obj fs =>
            match objGet fs k with
            | none => .ok (none, root)
            | some v =>
              .ok (some v, (replaceAt parentSegs root (.obj (objDelete fs k))).getD root)
          | _ => .ok (none, root)

/-! Relative JSON pointers (`src/relativePointer.ts`).  A relative pointer is
its segment list; the head segment is the origin token (a plain number, or a
string such as `"1+2#"`).  The file contains three near-duplicate versions of
the class; the first (lines 22-483) and third (lines 949-1307) are embedded
where they differ. -/

/-- `Number.parseInt(s, 10)` on an origin token: the leading digit run
(the grammar guarantees it is non-empty). -/
def parseIntPrefix (s : String) : Nat :=
  digitsToNat (s.data.takeWhile Char.isDigit)

/-- `JsonRelativePointer.isKeyPointer`: `.endsWith('#')`, i.e. the last
character of the origin token is `#`. -/
def isKeyPointer (rp : List Seg) : Bool :=
  (segStr (rp.headD (.s ""))).data.getLast? = some '#'

/-- `JsonRelativePointer.getParentIndex`. -/
def getParentIndex (rp : List Seg) : Nat :=
  parseIntPrefix (segStr (rp.headD (.s "")))

/-- `JsonRelativePointer.getParentIndexOffset`: the regex
`/([+-]\d+)#?$/` — an optional trailing `#` stripped, then a maximal
trailing digit run immediately preceded by a sign. -/
def getParentIndexOffset (rp : List Seg) : Int :=
  let cs := (segStr (rp.headD (.s ""))).data
  let core := if cs.getLast? = some '#' then cs.dropLast else cs
  let rev := core.reverse
  let digits := rev.takeWhile Char.isDigit
  if digits.isEmpty then 0
  else
    match (rev.drop digits.length).head? with
    | some '+' => (digitsToNat digits.reverse : Int)
    | some '-' => -(digitsToNat digits.reverse : Int)
    | _ => 0

/-- `JsonRelativePointer.resolve` (base already normalized to a pointer). -/
def rpResolve (rp base : List Seg) : Except PErr (List Seg) :=
  if isKeyPointer rp then
    .error (.pointerError "A key pointer cannot be resolved to an absolute pointer.")
  else if getParentIndexOffset rp ≠ 0 then
    .error (.pointerError "A pointer with an offset cannot be resolved to an absolute pointer.")
  else
    let parentIndex := getParentIndex rp
    if parentIndex > base.length then
      .error (.pointerError "The relative pointer is out of bounds.")
    else
      fromList ((if parentIndex > 0 then base.take (base.length - parentIndex) else base)
        ++ rp.tail)

/-- `JsonRelativePointer.getReferenceStack`, first version: drain the base
pointer's traversal, ascend `parentIndex` levels, then apply an optional
sibling offset (offset failures are `InvalidReferenceError`s here). -/
def getReferenceStackV1 (rp base : List Seg) (root : Json) : Except PErr (List Entry) :=
  match traverse base root with
  | .error e => .error e
  | .ok es =>
    let parentIndex := getParentIndex rp
    if parentIndex ≥ es.length then
      .error (.pointerError "The relative pointer is out of bounds.")
    else
      let stackIndex := es.length - parentIndex - 1
      let offset := getParentIndexOffset rp
      if offset ≠ 0 then
        -- `stack[stackIndex - 1]?.[1]` is undefined when stackIndex = 0
        let elementsOpt : Option Json :=
          match stackIndex with
          | 0 => none
          | k + 1 => some (es.getD k (none, root)).2
        match elementsOpt, (es.getD stackIndex (none, root)).1 with
        | some (.arr elems), some (.i m) =>
          let offsetIndex := m + offset
          if offsetIndex < 0 ∨ offsetIndex ≥ (elems.length : Int) then
            .error (.invalidReference "The element index is out of bounds.")
          else
            .ok (es.take stackIndex
              ++ [(some (.i offsetIndex), elems.getD offsetIndex.toNat .null)])
        | _, _ =>
          .error (.invalidReference "An offset can only be applied to array elements.")
      else
        .ok (es.take (stackIndex + 1))

/-- `getReferenceStack`, third version: identical control flow, but the two
offset failures are thrown as plain `JsonPointerError`s. -/
def getReferenceStackV3 (rp base : List Seg) (root : Json) : Except PErr (List Entry) :=
  match traverse base root with
  | .error e => .error e
  | .ok es =>
    let parentIndex := getParentIndex rp
    if parentIndex ≥ es.length then
      .error (.pointerError "The relative pointer is out of bounds.")
    else
      let stackIndex := es.length - parentIndex - 1
      let offset := getParentIndexOffset rp
      if offset ≠ 0 then
        let elementsOpt : Option Json :=
          match stackIndex with
          | 0 => none
          | k + 1 => some (es.getD k (none, root)).2
        match elementsOpt, (es.getD stackIndex (none, root)).1 with
        | some (.arr elems), some (.i m) =>
          let offsetIndex := m + offset
          if offsetIndex < 0 ∨ offsetIndex ≥ (elems.length : Int) then
            .error (.pointerError "The element index is out of bounds.")
          else
            .ok (es.take stackIndex
              ++ [(some (.i offsetIndex), elems.getD offsetIndex.toNat .null)])
        | _, _ =>
          .error (.pointerError "An offset can only be applied to array elements.")
      else
        .ok (es.take (stackIndex + 1))

/-- The result of `JsonRelativePointer.get`: a key pointer returns the
segment itself, anything else the referenced value. -/
inductive RVal where
  | seg (sg : Seg)
  | val (v : Json)
deriving Repr

/-- `JsonRelativePointer.get`, first version. -/
def rpGetV1 (rp base : List Seg) (root : Json) : Except PErr RVal :=
  match getReferenceStackV1 rp base root with
  | .error e => .error e
  | .ok stack =>
    let top := stack.getLastD (none, root)
    if isKeyPointer rp then
      match top.1 with
      | none => .error (.invalidReference "The root value has no key.")
      | some sg => .ok (.seg sg)
    else
      match fromList rp.tail with
      | .error e => .error e
      | .ok rem =>
        match get rem top.2 with
        | .error e => .error e
        | .ok v => .ok (.val v)

/-- The delegated mutation of `JsonRelativePointer.set`: which
`JsonPointer.set(structure, value)` call is performed.  Both code paths
delegate to an absolute-pointer `set`, so an equal call is the same
mutation of the tree. -/
abbrev SetCall := Json × List Seg × Json

/-- `JsonRelativePointer.set`, first version (lines 309-331): build the
stack, delegate to the remainder pointer when it is non-root, and only
otherwise require at least two stack entries. -/
def rpSetV1 (rp base : List Seg) (root value : Json) : Except PErr SetCall :=
  if isKeyPointer rp then .error (.pointerError "Cannot write to a key.")
  else
    match getReferenceStackV1 rp base root with
    | .error e => .error e
    | .ok stack =>
      match fromList rp.tail with
      | .error e => .error e
      | .ok rem =>
        if ¬ rem.isEmpty then .ok ((stack.getLastD (none, root)).2, rem, value)
        else if stack.length < 2 then .error (.pointerError "Cannot set the root value.")
        else
          -- `stack[stack.length - 1][0]!`: non-null whenever the stack has
          -- at least two entries
          let sg := (stack.getLastD (none, root)).1.getD (.s "")
          let struct := (stack.getD (stack.length - 2) (none, root)).2
          match fromList [sg] with
          | .error e => .error e
          | .ok sgl => .ok (struct, sgl, value)

/-- `JsonRelativePointer.set`, second version (lines 758-780): character for
character the same body as the first version. -/
def rpSetV2 (rp base : List Seg) (root value : Json) : Except PErr SetCall :=
  if isKeyPointer rp then .error (.pointerError "Cannot write to a key.")
  else
    match getReferenceStackV1 rp base root with
    | .error e => .error e
    | .ok stack =>
      match fromList rp.tail with
      | .error e => .error e
      | .ok rem =>
        if ¬ rem.isEmpty then .ok ((stack.getLastD (none, root)).2, rem, value)
        else if stack.length < 2 then .error (.pointerError "Cannot set the root value.")
        else
          let sg := (stack.getLastD (none, root)).1.getD (.s "")
          let struct := (stack.getD (stack.length - 2) (none, root)).2
          match fromList [sg] with
          | .error e => .error e
          | .ok sgl => .ok (struct, sgl, value)

/-- `JsonRelativePointer.set`, third version (lines 1159-1182): the
two-entry minimum is checked BEFORE the remainder pointer is consulted. -/
def rpSetV3 (rp base : List Seg) (root value : Json) : Except PErr SetCall :=
  if isKeyPointer rp then .error (.pointerError "Cannot write to a key.")
  else
    match getReferenceStackV3 rp base root with
    | .error e => .error e
    | .ok stack =>
      if stack.length < 2 then .error (.pointerError "Cannot set the root value.")
      else
        match fromList rp.tail with
        | .error e => .error e
        | .ok rem =>
          if ¬ rem.isEmpty then .ok ((stack.getLastD (none, root)).2, rem, value)
          else
            let sg := (stack.getLastD (none, root)).1.getD (.s "")
            let struct := (stack.getD (stack.length - 2) (none, root)).2
            match fromList [sg] with
            | .error e => .error e
            | .ok sgl => .ok (struct, sgl, value)

/-- The raw JS array assignment `arr[n] = v` over a possibly-sparse array
(JS machine semantics, used to state density preservation): out-of-range
writes pad the gap with holes (`none`), which is exactly what the bounds
guard in `set` prevents. -/
def jsArrayWrite (elems : List (Option Json)) (n : Nat) (v : Json) : List (Option Json) :=
  if n < elems.length then elems.set n (some v)
  else elems ++ List.replicate (n - elems.length) none ++ [some v]

/-- The segment invariant every constructed pointer satisfies: integer
segments are non-negative safe integers, and string segments are never pure
digit strings (those are converted to integers by `normalizeSegment` /
`unescapeSegment` on every construction path). -/
def NormalSeg : Seg → Prop
  | .i n => 0 ≤ n ∧ n ≤ maxSafeInt
  | .s str => isDigitsStr str = false

/-- The successful one-step descent of `traverse` (proof-side summary of the
non-error branches of `traverseAux`): an in-range integer index into an
array, or a present key of an object. -/
def stepOk : Json → Seg → Option Json
  | .arr elems, .i n =>
    if n ≥ (elems.length : Int) ∨ n < 0 then none else some (elems.getD n.toNat .null)
  | .obj fs, .s k => objGet fs k
  | _, _ => none

/-! Helper lemmas. -/

/-- A successful `fromSegments` guarantees every integer segment is a
non-negative safe integer. -/
lemma fromSegments_ok_ranges {segs l : List Seg} (h : fromSegments segs = .ok l) :
    l = segs ∧ ∀ m : Int, Seg.i m ∈ l → 0 ≤ m ∧ m ≤ maxSafeInt := by
  cases hf : segs.find? badSeg with
  | none =>
    have hall := List.find?_eq_none.mp hf
    have hl : l = segs := by
      simp only [fromSegments, hf] at h
      exact (Except.ok.injEq _ _).mp h.symm
    subst hl
    refine ⟨rfl, fun m hm => ?_⟩
    have := hall _ hm
    simp only [badSeg, Bool.or_eq_true, decide_eq_true_eq, not_or] at this
    omega
  | some x =>
    have hb := List.find?_some hf
    cases x with
    | s str => simp [badSeg] at hb
    | i n => simp [fromSegments, hf] at h

/-- A bad integer segment in the list makes `fromSegments` fail with a
syntax error naming some bad segment value. -/
lemma fromSegments_err_of_bad {segs : List Seg} {m : Int}
    (hm : Seg.i m ∈ segs) (hbad : badSeg (Seg.i m) = true) :
    ∃ m' : Int, badSeg (Seg.i m') = true ∧
      fromSegments segs =
        .error (.invalidSyntax ("Invalid integer segment \"" ++ toString m' ++ "\".")) := by
  have hsome : (segs.find? badSeg).isSome := List.find?_isSome.mpr ⟨_, hm, hbad⟩
  cases hf : segs.find? badSeg with
  | none => rw [hf] at hsome; simp at hsome
  | some x =>
    have hb := List.find?_some hf
    cases x with
    | s str => simp [badSeg] at hb
    | i n => exact ⟨n, hb, by simp [fromSegments, hf]⟩

/-! C1. -/

/-- C1 (code bug): the round-trip `parse(P.toString()).equals(P)` fails for
segments with more than one `~` or `/`: `escapeSegment` rewrites only the
first occurrence (JS string-pattern `replace`), contradicting its own
comment ("transform any occurrence") and the global unescaping of `parse`.
Constructing the pointer from `["~~"]` succeeds, it prints as `"/~0~"`,
and `parse` rejects that string as an invalid escape sequence; constructing
from `["a/b/c"]` prints as `"/a~1b/c"`, which parses back to the different
pointer `["a/b", "c"]`. -/
theorem C1_roundtrip_code_bug :
    fromList [Seg.s "~~"] = .ok [Seg.s "~~"]
    ∧ toStringPtr [Seg.s "~~"] = "/~0~"
    ∧ parse "/~0~" = .error (.invalidSyntax "Invalid escape sequence in \"/~0~\".")
    ∧ fromList [Seg.s "a/b/c"] = .ok [Seg.s "a/b/c"]
    ∧ toStringPtr [Seg.s "a/b/c"] = "/a~1b/c"
    ∧ parse "/a~1b/c" = .ok [Seg.s "a/b", Seg.s "c"]
    ∧ [Seg.s "a/b", Seg.s "c"] ≠ [Seg.s "a/b/c"] := by
  refine ⟨rfl, rfl, rfl, rfl, rfl, rfl, by decide⟩

/-! C2. -/

/-- C2 (counterexample): `parse` builds the pointer with the raw constructor
and never range-checks, so `parse("/9007199254740992")` constructs a pointer
whose integer segment 2^53 exceeds `Number.MAX_SAFE_INTEGER`, with no error
— refuting "no pointer carrying an out-of-range integer segment can ever be
constructed, regardless of which construction path is taken". -/
theorem C2_counterexample :
    parse "/9007199254740992" = .ok [Seg.i 9007199254740992]
    ∧ badSeg (Seg.i 9007199254740992) = true
    ∧ maxSafeInt < 9007199254740992 := by
  refine ⟨rfl, rfl, by decide⟩

/-- C2 (amended): construction `from` a segment list or a number, and
`joinedWith` with a non-root argument, enforce that every integer segment is
a non-negative safe integer and fail with a syntax error naming a violating
segment value; `parse`, however, performs no such range check. -/
theorem C2_amended_range_check :
    (∀ segs l, fromList segs = .ok l → ∀ m : Int, Seg.i m ∈ l → 0 ≤ m ∧ m ≤ maxSafeInt)
    ∧ (∀ segs (m : Int), Seg.i m ∈ segs.map normSeg → badSeg (Seg.i m) = true →
        ∃ m' : Int, badSeg (Seg.i m') = true ∧
          fromList segs =
            .error (.invalidSyntax ("Invalid integer segment \"" ++ toString m' ++ "\".")))
    ∧ (∀ (n : Int) l, fromNumber n = .ok l → ∀ m : Int, Seg.i m ∈ l → 0 ≤ m ∧ m ≤ maxSafeInt)
    ∧ (∀ n : Int, badSeg (Seg.i n) = true →
        fromNumber n =
          .error (.invalidSyntax ("Invalid integer segment \"" ++ toString n ++ "\".")))
    ∧ (∀ a b l, b ≠ [] → joinedWith a b = .ok l →
        ∀ m : Int, Seg.i m ∈ l → 0 ≤ m ∧ m ≤ maxSafeInt) := by
  refine ⟨?_, ?_, ?_, ?_, ?_⟩
  · intro segs l h m hm
    exact (fromSegments_ok_ranges h).2 m hm
  · intro segs m hm hbad
    exact fromSegments_err_of_bad hm hbad
  · intro n l h m hm
    exact (fromSegments_ok_ranges h).2 m hm
  · intro n hbad
    have : (List.find? badSeg [Seg.i n]) = some (Seg.i n) := by
      simp [List.find?, hbad]
    simp [fromNumber, fromSegments, this]
  · intro a b l hb h m hm
    have hbe : b.isEmpty = false := by
      cases b with
      | nil => exact absurd rfl hb
      | cons x xs => rfl
    simp only [joinedWith, hbe, Bool.false_eq_true, if_false] at h
    exact (fromSegments_ok_ranges h).2 m hm

/-- C2 amended, witness: `from([-1])` and `from(-1)` both fail naming the
segment. -/
theorem C2_amended_range_check_witness :
    (∃ m' : Int, badSeg (Seg.i m') = true ∧
      fromList [Seg.i (-1)] =
        .error (.invalidSyntax ("Invalid integer segment \"" ++ toString m' ++ "\".")))
    ∧ fromNumber (-1) =
        .error (.invalidSyntax ("Invalid integer segment \"" ++ toString (-1 : Int) ++ "\".")) :=
  ⟨C2_amended_range_check.2.1 [Seg.i (-1)] (-1) (by decide) (by decide),
   C2_amended_range_check.2.2.2.1 (-1) (by decide)⟩

/-! C7. -/

/-- C7: `has` is the total try/catch wrapper of `get`: it never propagates a
failure and returns `true` exactly when `get` succeeds on the same pointer
and value. -/
theorem C7_has_iff_get :
    ∀ segs (root : Json), hasPtr segs root = true ↔ ∃ v, get segs root = .ok v := by
  intro segs root
  unfold hasPtr
  cases h : get segs root <;> simp

/-- C7, witness. -/
theorem C7_has_iff_get_witness :
    hasPtr [] Json.null = true ↔ ∃ v, get [] Json.null = .ok v :=
  C7_has_iff_get [] Json.null

/-! C6. -/

/-- C6: for every non-root pointer and every value, `unset` never throws: it
always returns, and whenever it returns the no-value sentinel (`none`, JS
`undefined`) the tree is unchanged.  Moreover each of the claim's failure
cases really is a silent no-op returning the sentinel with the tree intact:
an unresolvable parent (the parent `get` throws), a non-structure parent, an
integer segment whose index is at or beyond an array parent's length, an
integer segment against an object parent, a string segment against an array
parent, and an absent key of an object parent.  Only the root pointer makes
`unset` throw. -/
theorem C6_unset_never_throws :
    ∀ segs (root : Json),
      (segs = [] →
        unset segs root = .error (.invalidReference "Cannot unset the root value."))
      ∧ (segs ≠ [] → ∃ r t, unset segs root = .ok (r, t) ∧ (r = none → t = root))
      ∧ (∀ sg, segs.getLast? = some sg →
          (∀ e, get segs.dropLast root = .error e →
            unset segs root = .ok (none, root))
          ∧ (∀ parent, get segs.dropLast root = .ok parent →
              (isStructure parent = false → unset segs root = .ok (none, root))
              ∧ (∀ n : Int, sg = .i n →
                  (∀ elems, parent = .arr elems → (elems.length : Int) ≤ n →
                    unset segs root = .ok (none, root))
                  ∧ (∀ fs, parent = .obj fs → unset segs root = .ok (none, root)))
              ∧ (∀ k, sg = .s k →
                  (∀ elems, parent = .arr elems → unset segs root = .ok (none, root))
                  ∧ (∀ fs, parent = .obj fs → objGet fs k = none →
                      unset segs root = .ok (none, root))))) := by
  intro segs root
  refine ⟨fun h => by subst h; rfl, ?_, ?_⟩
  · intro hne
    obtain ⟨sg, hsg⟩ : ∃ sg, segs.getLast? = some sg := by
      cases h : segs.getLast? with
      | none => exact absurd (List.getLast?_eq_none_iff.mp h) hne
      | some sg => exact ⟨sg, rfl⟩
    unfold unset
    simp only [hsg]
    split
    case _ => exact ⟨none, root, rfl, fun _ => rfl⟩
    case _ parent _ =>
      split
      case isTrue => exact ⟨none, root, rfl, fun _ => rfl⟩
      case isFalse =>
        cases sg with
        | i n =>
          cases parent with
          | arr elems =>
            by_cases hb : 0 ≤ n ∧ n.toNat < elems.length
            · refine ⟨some (elems.get ⟨n.toNat, hb.2⟩),
                (replaceAt segs.dropLast root (Json.arr (elems.eraseIdx n.toNat))).getD root,
                ?_, fun h => Option.noConfusion h⟩
              simp [hb]
            · exact ⟨none, root, by simp [hb], fun _ => rfl⟩
          | null => exact ⟨none, root, rfl, fun _ => rfl⟩
          | bool b => exact ⟨none, root, rfl, fun _ => rfl⟩
          | num m => exact ⟨none, root, rfl, fun _ => rfl⟩
          | str s => exact ⟨none, root, rfl, fun _ => rfl⟩
          | obj fs => exact ⟨none, root, rfl, fun _ => rfl⟩
        | s k =>
          cases parent with
          | arr elems => exact ⟨none, root, rfl, fun _ => rfl⟩
          | obj fs =>
            cases hk : objGet fs k with
            | none => exact ⟨none, root, by simp [hk], fun _ => rfl⟩
            | some v =>
              exact ⟨some v,
                (replaceAt segs.dropLast root (Json.obj (objDelete fs k))).getD root,
                by simp [hk], fun h => Option.noConfusion h⟩
          | null => exact ⟨none, root, rfl, fun _ => rfl⟩
          | bool b => exact ⟨none, root, rfl, fun _ => rfl⟩
          | num m => exact ⟨none, root, rfl, fun _ => rfl⟩
          | str s => exact ⟨none, root, rfl, fun _ => rfl⟩
  · intro sg hsg
    refine ⟨?_, ?_⟩
    · intro e he
      unfold unset
      simp only [hsg, he]
    · intro parent hp
      refine ⟨?_, ?_, ?_⟩
      · intro hstr
        unfold unset
        simp only [hsg, hp]
        simp [hstr]
      · intro n hsgn
        subst hsgn
        refine ⟨?_, ?_⟩
        · intro elems hpe hge
          subst hpe
          have hb : ¬ (0 ≤ n ∧ n.toNat < elems.length) := by omega
          unfold unset
          simp only [hsg, hp]
          simp [isStructure, hb]
        · intro fs hpf
          subst hpf
          unfold unset
          simp only [hsg, hp]
          simp [isStructure]
      · intro k hsgk
        subst hsgk
        refine ⟨?_, ?_⟩
        · intro elems hpe
          subst hpe
          unfold unset
          simp only [hsg, hp]
          simp [isStructure]
        · intro fs hpf hk
          subst hpf
          unfold unset
          simp only [hsg, hp]
          simp [isStructure, hk]

/-- C6, witness: one concrete instance per failure case — unresolvable
parent, non-structure parent, integer segment on an object, out-of-range
array index, string segment on an array, absent key — each returning the
sentinel with the tree unchanged, plus the throwing root pointer. -/
theorem C6_unset_never_throws_witness :
    unset [Seg.s "a", Seg.s "b"] (Json.obj []) = .ok (none, Json.obj [])
    ∧ unset [Seg.s "a", Seg.s "b"] (Json.obj [("a", Json.num 1)])
        = .ok (none, Json.obj [("a", Json.num 1)])
    ∧ unset [Seg.i 0] (Json.obj []) = .ok (none, Json.obj [])
    ∧ unset [Seg.i 5] (Json.arr [Json.num 1]) = .ok (none, Json.arr [Json.num 1])
    ∧ unset [Seg.s "x"] (Json.arr []) = .ok (none, Json.arr [])
    ∧ unset [Seg.s "x"] (Json.obj []) = .ok (none, Json.obj [])
    ∧ unset [] (Json.obj []) = .error (.invalidReference "Cannot unset the root value.") :=
  ⟨((C6_unset_never_throws [Seg.s "a", Seg.s "b"] (Json.obj [])).2.2
      (Seg.s "b") rfl).1
      (.invalidReference "Property \"a\" does not exist at \"\".") rfl,
   (((C6_unset_never_throws [Seg.s "a", Seg.s "b"]
        (Json.obj [("a", Json.num 1)])).2.2 (Seg.s "b") rfl).2
      (Json.num 1) rfl).1 rfl,
   ((((C6_unset_never_throws [Seg.i 0] (Json.obj [])).2.2
        (Seg.i 0) rfl).2 (Json.obj []) rfl).2.1 0 rfl).2 [] rfl,
   ((((C6_unset_never_throws [Seg.i 5] (Json.arr [Json.num 1])).2.2
        (Seg.i 5) rfl).2 (Json.arr [Json.num 1]) rfl).2.1 5 rfl).1
      [Json.num 1] rfl (by decide),
   ((((C6_unset_never_throws [Seg.s "x"] (Json.arr [])).2.2
        (Seg.s "x") rfl).2 (Json.arr []) rfl).2.2 "x" rfl).1 [] rfl,
   ((((C6_unset_never_throws [Seg.s "x"] (Json.obj [])).2.2
        (Seg.s "x") rfl).2 (Json.obj []) rfl).2.2 "x" rfl).2 [] rfl rfl,
   (C6_unset_never_throws [] (Json.obj [])).1 rfl⟩

/-! C5. -/

/-- C5: `set` whose resolved parent is an array `a`: the `-` sentinel
appends; an integer equal to `a.length` appends (append-by-index); an
integer strictly greater than `a.length` fails with an out-of-bounds
reference error; an integer strictly below `a.length` overwrites the
element at that index. -/
theorem C5_set_array_cases :
    ∀ (ps : List Seg) (root : Json) (a : List Json) (v : Json),
      get ps root = .ok (.arr a) →
      (set (ps ++ [Seg.s "-"]) root v =
          .ok ((replaceAt ps root (.arr (a ++ [v]))).getD root))
      ∧ (∀ n : Int, n = (a.length : Int) →
          set (ps ++ [Seg.i n]) root v =
            .ok ((replaceAt ps root (.arr (a ++ [v]))).getD root))
      ∧ (∀ n : Int, (a.length : Int) < n →
          set (ps ++ [Seg.i n]) root v =
            .error (.invalidReference
              ("Index " ++ toString n ++ " is out of bounds at \"" ++ toStringPtr ps ++ "\".")))
      ∧ (∀ n : Int, 0 ≤ n → n < (a.length : Int) →
          set (ps ++ [Seg.i n]) root v =
            .ok ((replaceAt ps root (.arr (a.set n.toNat v))).getD root)) := by
  intro ps root a v hget
  have hdrop : ∀ sg : Seg, (ps ++ [sg]).dropLast = ps := fun sg => List.dropLast_concat
  have hlast : ∀ sg : Seg, (ps ++ [sg]).getLast? = some sg := fun sg => List.getLast?_concat _
  refine ⟨?_, ?_, ?_, ?_⟩
  · unfold set
    simp [hlast, hdrop, hget, isStructure]
  · intro n hn
    unfold set
    have h1 : ¬(n > (a.length : Int)) := by omega
    have h2 : ¬(n.toNat < a.length) := by omega
    simp [hlast, hdrop, hget, isStructure, h1, arrWrite, h2]
  · intro n hn
    unfold set
    have h1 : n > (a.length : Int) := hn
    simp [hlast, hdrop, hget, isStructure, h1]
  · intro n h0 hlt
    unfold set
    have h1 : ¬(n > (a.length : Int)) := by omega
    have h2 : n.toNat < a.length := by omega
    simp [hlast, hdrop, hget, isStructure, h1, arrWrite, h2]

/-- C5, witness: the spec's append scenario (pointer `/foo` extended with
the `-` sentinel on `{foo:["bar"]}`) and an out-of-bounds index. -/
theorem C5_set_array_cases_witness :
    set [Seg.s "foo", Seg.s "-"] (Json.obj [("foo", Json.arr [Json.str "bar"])])
        (Json.str "baz")
      = .ok (Json.obj [("foo", Json.arr [Json.str "bar", Json.str "baz"])])
    ∧ set [Seg.s "foo", Seg.i 5] (Json.obj [("foo", Json.arr [Json.str "bar"])])
        (Json.str "baz")
      = .error (.invalidReference "Index 5 is out of bounds at \"/foo\".") := by
  have h := C5_set_array_cases [Seg.s "foo"]
    (Json.obj [("foo", Json.arr [Json.str "bar"])]) [Json.str "bar"] (Json.str "baz") rfl
  exact ⟨h.1.trans rfl, (h.2.2.1 5 (by decide)).trans rfl⟩

/-! C3. -/

/-- C3: each traversal step of `traverse`: a non-structure current value
fails with a reference error naming the pointer truncated to the failing
depth; on an array, the `-` sentinel always fails reporting the array length
as the out-of-bounds index, a string segment fails expecting an object, and
an integer segment at or beyond the length fails out of bounds; on an
object, an integer segment fails expecting an array and a missing key fails
as a non-existent property. -/
theorem C3_traverse_step_cases :
    ∀ (full : List Seg) (i : Nat) (sg : Seg) (rest : List Seg) (cur : Json),
      (isStructure cur = false →
        traverseAux full i (sg :: rest) cur =
          .error (.invalidReference
            ("Cannot read value at \"" ++ toStringPtr (full.take i) ++ "\".")))
      ∧ (∀ elems, cur = .arr elems →
          (sg = .s "-" →
            traverseAux full i (sg :: rest) cur =
              .error (.invalidReference
                ("Index " ++ toString elems.length ++ " is out of bounds at \""
                  ++ toStringPtr (full.take i) ++ "\".")))
          ∧ (∀ str, sg = .s str → str ≠ "-" →
              traverseAux full i (sg :: rest) cur =
                .error (.invalidReference
                  ("Expected an object at \"" ++ toStringPtr (full.take i)
                    ++ "\", got an array.")))
          ∧ (∀ n : Int, sg = .i n → (elems.length : Int) ≤ n →
              traverseAux full i (sg :: rest) cur =
                .error (.invalidReference
                  ("Index " ++ toString n ++ " is out of bounds at \""
                    ++ toStringPtr (full.take i) ++ "\"."))))
      ∧ (∀ fs, cur = .obj fs →
          (∀ n : Int, sg = .i n →
            traverseAux full i (sg :: rest) cur =
              .error (.invalidReference
                ("Expected array at \"" ++ toStringPtr (full.take i)
                  ++ "\", got object.")))
          ∧ (∀ k, sg = .s k → objGet fs k = none →
              traverseAux full i (sg :: rest) cur =
                .error (.invalidReference
                  ("Property \"" ++ k ++ "\" does not exist at \""
                    ++ toStringPtr (full.take i) ++ "\".")))) := by
  intro full i sg rest cur
  refine ⟨?_, ?_, ?_⟩
  · intro h
    unfold traverseAux
    cases cur <;> simp_all [isStructure]
  · intro elems hcur
    subst hcur
    refine ⟨?_, ?_, ?_⟩
    · intro hsg; subst hsg; simp [traverseAux, isStructure]
    · intro str hsg hne; subst hsg; simp [traverseAux, isStructure, hne]
    · intro n hsg hge; subst hsg
      simp [traverseAux, isStructure, hge]
  · intro fs hcur
    subst hcur
    refine ⟨?_, ?_⟩
    · intro n hsg; subst hsg; simp [traverseAux, isStructure]
    · intro k hsg hk; subst hsg; simp [traverseAux, isStructure, hk]

/-- C3, witness: one instance per error branch at depth 0 (where the
truncated pointer prints as the empty root string). -/
theorem C3_traverse_step_cases_witness :
    traverseAux [Seg.s "a"] 0 [Seg.s "a"] (Json.num 3)
      = .error (.invalidReference "Cannot read value at \"\".")
    ∧ traverseAux [Seg.s "-"] 0 [Seg.s "-"] (Json.arr [])
      = .error (.invalidReference "Index 0 is out of bounds at \"\".")
    ∧ traverseAux [Seg.s "k"] 0 [Seg.s "k"] (Json.arr [])
      = .error (.invalidReference "Expected an object at \"\", got an array.")
    ∧ traverseAux [Seg.i 2] 0 [Seg.i 2] (Json.arr [Json.null])
      = .error (.invalidReference "Index 2 is out of bounds at \"\".")
    ∧ traverseAux [Seg.i 0] 0 [Seg.i 0] (Json.obj [])
      = .error (.invalidReference "Expected array at \"\", got object.")
    ∧ traverseAux [Seg.s "k"] 0 [Seg.s "k"] (Json.obj [])
      = .error (.invalidReference "Property \"k\" does not exist at \"\".") :=
  ⟨((C3_traverse_step_cases [Seg.s "a"] 0 (Seg.s "a") [] (Json.num 3)).1 rfl).trans rfl,
   (((C3_traverse_step_cases [Seg.s "-"] 0 (Seg.s "-") [] (Json.arr [])).2.1 [] rfl).1
     rfl).trans rfl,
   (((C3_traverse_step_cases [Seg.s "k"] 0 (Seg.s "k") [] (Json.arr [])).2.1 [] rfl).2.1
     "k" rfl (by decide)).trans rfl,
   (((C3_traverse_step_cases [Seg.i 2] 0 (Seg.i 2) [] (Json.arr [Json.null])).2.1
     [Json.null] rfl).2.2 2 rfl (by decide)).trans rfl,
   (((C3_traverse_step_cases [Seg.i 0] 0 (Seg.i 0) [] (Json.obj [])).2.2 [] rfl).1
     0 rfl).trans rfl,
   (((C3_traverse_step_cases [Seg.s "k"] 0 (Seg.s "k") [] (Json.obj [])).2.2 [] rfl).2
     "k" rfl rfl).trans rfl⟩

/-! C4. -/

/-- C4: density preservation.  A successful `set` through an integer segment
implies the index was at most the array length; under that guard the raw JS
array assignment creates no hole and coincides with the dense write used in
the embedding; and `unset` on an in-range array index removes the element
and shifts every subsequent element down by one. -/
theorem C4_density_preservation :
    (∀ (ps : List Seg) (root : Json) (a : List Json) (v : Json) (n : Int) r,
        get ps root = .ok (.arr a) →
        set (ps ++ [Seg.i n]) root v = .ok r →
        n ≤ (a.length : Int))
    ∧ (∀ (a : List Json) (n : Nat) (v : Json), n ≤ a.length →
        jsArrayWrite (a.map some) n v = (arrWrite a (n : Int) v).map some
        ∧ ∀ x ∈ jsArrayWrite (a.map some) n v, x ≠ none)
    ∧ (∀ (ps : List Seg) (root : Json) (a : List Json) (n : Int),
        get ps root = .ok (.arr a) → 0 ≤ n → n < (a.length : Int) →
        unset (ps ++ [Seg.i n]) root =
          .ok (some (a.getD n.toNat .null),
            (replaceAt ps root (.arr (a.eraseIdx n.toNat))).getD root)
        ∧ ∀ j : Nat, n.toNat ≤ j → (a.eraseIdx n.toNat)[j]? = a[j + 1]?) := by
  refine ⟨?_, ?_, ?_⟩
  · intro ps root a v n r hget hset
    by_cases hgt : n > (a.length : Int)
    · exfalso
      unfold set at hset
      simp [List.getLast?_concat, List.dropLast_concat, hget, isStructure, hgt] at hset
    · omega
  · intro a n v hle
    have hwrite : jsArrayWrite (a.map some) n v = (arrWrite a (n : Int) v).map some := by
      rcases lt_or_eq_of_le hle with hlt | heq
      · simp only [jsArrayWrite, arrWrite, List.length_map, hlt, if_pos, Int.toNat_ofNat]
        exact List.map_set.symm
      · have hnlt : ¬ n < a.length := by omega
        simp only [jsArrayWrite, arrWrite, List.length_map, hnlt, if_false, Int.toNat_ofNat,
          heq, Nat.sub_self, List.replicate_zero, List.append_nil, List.map_append,
          List.map_cons, List.map_nil]
        simp [heq]
    refine ⟨hwrite, fun x hx => ?_⟩
    rw [hwrite] at hx
    obtain ⟨y, _, hy⟩ := List.mem_map.mp hx
    exact hy ▸ Option.some_ne_none y
  · intro ps root a n hget h0 hlt
    have hb : 0 ≤ n ∧ n.toNat < a.length := ⟨h0, by omega⟩
    constructor
    · unfold unset
      simp [List.getLast?_concat, List.dropLast_concat, hget, isStructure, hb,
        List.getD_eq_getElem a .null hb.2]
    · intro j hj
      rw [List.getElem?_eraseIdx]
      simp [Nat.not_lt.mpr hj]

/-- C4, witness: the spec's delete scenario `unset({a:[1,2]}, parse("/a/0"))`
returns `1` and shifts the array to `[2]`; the JS write at the length of a
one-element array is the dense append. -/
theorem C4_density_preservation_witness :
    unset [Seg.s "a", Seg.i 0] (Json.obj [("a", Json.arr [Json.num 1, Json.num 2])])
      = .ok (some (Json.num 1), Json.obj [("a", Json.arr [Json.num 2])])
    ∧ jsArrayWrite [some (Json.num 1)] 1 (Json.num 2)
      = [some (Json.num 1), some (Json.num 2)] := by
  have h3 := (C4_density_preservation.2.2 [Seg.s "a"]
    (Json.obj [("a", Json.arr [Json.num 1, Json.num 2])])
    [Json.num 1, Json.num 2] 0 rfl (by decide) (by decide)).1
  have h2 := (C4_density_preservation.2.1 [Json.num 1] 1 (Json.num 2) (by decide)).1
  exact ⟨h3.trans rfl, h2.trans rfl⟩

/-! C8. -/

/-- `normalizeSegment` is the identity on segments satisfying the
construction invariant. -/
lemma normSeg_eq_self {sg : Seg} (h : NormalSeg sg) : normSeg sg = sg := by
  cases sg with
  | i n => rfl
  | s str =>
    simp only [NormalSeg] at h
    simp [normSeg, normalizeSegmentStr, h]

/-- `JsonPointer.from` on a list of already-normalized, in-range segments
returns them unchanged. -/
lemma fromList_normal {l : List Seg} (h : ∀ sg ∈ l, NormalSeg sg) :
    fromList l = .ok l := by
  have hmap : l.map normSeg = l := by
    induction l with
    | nil => rfl
    | cons x xs ih =>
      simp only [List.map_cons, normSeg_eq_self (h x (by simp)), List.cons.injEq, true_and]
      exact ih (fun sg hsg => h sg (by simp [hsg]))
  have hfind : l.find? badSeg = none := by
    refine List.find?_eq_none.mpr (fun x hx => ?_)
    have hn := h x hx
    cases x with
    | i n =>
      simp only [NormalSeg] at hn
      simp only [badSeg, Bool.or_eq_true, decide_eq_true_eq, not_or]
      omega
    | s str => simp [badSeg]
  rw [fromList, hmap]
  simp [fromSegments, hfind]

/-- The success case of `JsonRelativePointer.resolve` (shared by the C8 and
C10 theorems): within bounds it returns the base truncated by the parent
index with the remainder appended. -/
lemma rpResolve_ok {rp base : List Seg}
    (hkey : isKeyPointer rp = false)
    (hoff : getParentIndexOffset rp = 0)
    (htail : ∀ sg ∈ rp.tail, NormalSeg sg)
    (hbase : ∀ sg ∈ base, NormalSeg sg)
    (hle : getParentIndex rp ≤ base.length) :
    rpResolve rp base = .ok (base.take (base.length - getParentIndex rp) ++ rp.tail) := by
  have hngt : ¬ (base.length < getParentIndex rp) := by omega
  by_cases hN : 0 < getParentIndex rp
  · have hnorm : ∀ sg ∈ base.take (base.length - getParentIndex rp) ++ rp.tail,
        NormalSeg sg := by
      intro sg hsg
      rcases List.mem_append.mp hsg with hmem | hmem
      · exact hbase sg (List.mem_of_mem_take hmem)
      · exact htail sg hmem
    simp [rpResolve, hkey, hoff, hngt, hN, fromList_normal hnorm]
  · have hz : getParentIndex rp = 0 := by omega
    have hnorm : ∀ sg ∈ base ++ rp.tail, NormalSeg sg := by
      intro sg hsg
      rcases List.mem_append.mp hsg with hmem | hmem
      · exact hbase sg hmem
      · exact htail sg hmem
    simp [rpResolve, hkey, hoff, hngt, hN, fromList_normal hnorm, hz, List.take_length]

/-- C8: for a non-key, zero-offset relative pointer with parent index `N`
over a base pointer of depth `D`: `resolve` fails as out of bounds exactly
when `N > D`, and otherwise drops the last `N` segments of the base and
appends the remainder segments (so a parent index of 0 returns the base with
the remainder appended). -/
theorem C8_resolve_zero_offset :
    ∀ (rp base : List Seg),
      rp ≠ [] →
      isKeyPointer rp = false →
      getParentIndexOffset rp = 0 →
      (∀ sg ∈ rp.tail, NormalSeg sg) →
      (∀ sg ∈ base, NormalSeg sg) →
      (base.length < getParentIndex rp →
        rpResolve rp base = .error (.pointerError "The relative pointer is out of bounds."))
      ∧ (getParentIndex rp ≤ base.length →
        rpResolve rp base = .ok (base.take (base.length - getParentIndex rp) ++ rp.tail)) := by
  intro rp base hne hkey hoff htail hbase
  constructor
  · intro hgt
    simp [rpResolve, hkey, hoff, hgt]
  · intro hle
    exact rpResolve_ok hkey hoff htail hbase hle

/-- C8, witness: the spec's zero-ascent scenario, `parse("0")` resolved
against `parse("/foo/bar")` is `parse("/foo/bar")` itself. -/
theorem C8_resolve_zero_offset_witness :
    rpResolve [Seg.i 0] [Seg.s "foo", Seg.s "bar"] = .ok [Seg.s "foo", Seg.s "bar"] := by
  have h := (C8_resolve_zero_offset [Seg.i 0] [Seg.s "foo", Seg.s "bar"]
    (by decide) rfl rfl
    (by intro sg hsg; simp at hsg)
    (by
      intro sg hsg
      simp only [List.mem_cons, List.mem_singleton] at hsg
      rcases hsg with h | h | h
      · subst h; exact (by decide : isDigitsStr "foo" = false)
      · subst h; exact (by decide : isDigitsStr "bar" = false)
      · simp at h)).2 (by decide)
  exact h.trans rfl

/-! C9. -/

/-- The two `getReferenceStack` versions agree on every successful result
(they differ only in the error class of the two offset failures). -/
lemma getReferenceStack_ok_iff (rp base : List Seg) (root : Json) (stack : List Entry) :
    getReferenceStackV1 rp base root = .ok stack ↔
      getReferenceStackV3 rp base root = .ok stack := by
  unfold getReferenceStackV1 getReferenceStackV3
  cases htr : traverse base root with
  | error e => simp
  | ok es =>
    by_cases h1 : getParentIndex rp ≥ es.length
    · simp [h1]
    · simp only [h1, if_false]
      by_cases h2 : getParentIndexOffset rp = 0
      · simp [h2]
      · simp only [h2, ne_eq, not_false_eq_true, if_true]
        split
        · split <;> simp
        · simp

/-- C9 (counterexample): the first and third `JsonRelativePointer.set`
versions are not extensionally equivalent.  On root `{}`, relative pointer
`0/bar` and the root base pointer, the ancestor stack has a single entry:
the first version delegates to the remainder pointer (and the delegated
`JsonPointer.set` succeeds, writing `{bar: 7}`), while the third version
throws `Cannot set the root value.` before consulting the remainder. -/
theorem C9_counterexample :
    rpSetV1 [Seg.i 0, Seg.s "bar"] [] (Json.obj []) (Json.num 7)
      = .ok (Json.obj [], [Seg.s "bar"], Json.num 7)
    ∧ rpSetV3 [Seg.i 0, Seg.s "bar"] [] (Json.obj []) (Json.num 7)
      = .error (.pointerError "Cannot set the root value.")
    ∧ set [Seg.s "bar"] (Json.obj []) (Json.num 7)
      = .ok (Json.obj [("bar", Json.num 7)]) :=
  ⟨rfl, rfl, rfl⟩

/-- C9 (amended): the first and second `set` versions are extensionally
equal (their bodies are identical); the third differs in checking the
two-entry stack minimum before consulting the remainder pointer (and in the
error class of offset failures inside `getReferenceStack`), so all versions
agree exactly on inputs whose ancestor stack resolves to at least two
entries — where the non-root-remainder case delegates to the remainder
pointer's `set` against the stack-top value. -/
theorem C9_amended_equivalence :
    (∀ (rp base : List Seg) (root value : Json),
        rpSetV1 rp base root value = rpSetV2 rp base root value)
    ∧ (∀ (rp base : List Seg) (root value : Json) (stack : List Entry),
        getReferenceStackV1 rp base root = .ok stack → 2 ≤ stack.length →
        rpSetV1 rp base root value = rpSetV3 rp base root value) := by
  constructor
  · intro rp base root value
    rfl
  · intro rp base root value stack h1 hlen
    have h3 : getReferenceStackV3 rp base root = .ok stack :=
      (getReferenceStack_ok_iff rp base root stack).mp h1
    have hnl : ¬ (stack.length < 2) := by omega
    unfold rpSetV1 rpSetV3
    by_cases hkey : isKeyPointer rp
    · simp [hkey]
    · simp [hkey, h1, h3, hnl]

/-- C9 amended, witness: a two-entry stack on which the first and third
versions agree (both delegating the write of `foo` into the root object). -/
theorem C9_amended_equivalence_witness :
    rpSetV1 [Seg.i 0] [Seg.s "foo"] (Json.obj [("foo", Json.num 1)]) (Json.num 2)
      = rpSetV2 [Seg.i 0] [Seg.s "foo"] (Json.obj [("foo", Json.num 1)]) (Json.num 2)
    ∧ rpSetV1 [Seg.i 0] [Seg.s "foo"] (Json.obj [("foo", Json.num 1)]) (Json.num 2)
      = rpSetV3 [Seg.i 0] [Seg.s "foo"] (Json.obj [("foo", Json.num 1)]) (Json.num 2) :=
  ⟨C9_amended_equivalence.1 [Seg.i 0] [Seg.s "foo"]
      (Json.obj [("foo", Json.num 1)]) (Json.num 2),
   C9_amended_equivalence.2 [Seg.i 0] [Seg.s "foo"]
      (Json.obj [("foo", Json.num 1)]) (Json.num 2)
      [(none, Json.obj [("foo", Json.num 1)]), (some (Seg.s "foo"), Json.num 1)]
      rfl (by decide)⟩

/-! C10: lemmas relating the ancestor-stack resolution to plain `get`. -/

/-- Inversion of a successful `traverseAux` step. -/
lemma traverseAux_cons_iff {full : List Seg} {i : Nat} {sg : Seg} {rest : List Seg}
    {cur : Json} {es : List Entry} :
    traverseAux full i (sg :: rest) cur = .ok es ↔
      ∃ child es', stepOk cur sg = some child ∧
        traverseAux full (i + 1) rest child = .ok es' ∧
        es = (some sg, child) :: es' := by
  constructor
  · intro h
    unfold traverseAux at h
    cases cur with
    | arr elems =>
      cases sg with
      | s str =>
        by_cases hd : str = "-" <;> simp [isStructure, hd] at h
      | i n =>
        by_cases hb : n ≥ (elems.length : Int) ∨ n < 0
        · simp [isStructure, hb] at h
        · simp only [isStructure, Bool.not_true, not_true_eq_false, if_false, hb,
            not_false_eq_true, if_true, reduceCtorEq] at h
          cases hin : traverseAux full (i + 1) rest (elems.getD n.toNat .null) with
          | error e => rw [hin] at h; cases h
          | ok es' =>
            rw [hin] at h
            cases h
            exact ⟨elems.getD n.toNat .null, es', by simp [stepOk, hb], hin, rfl⟩
    | obj fs =>
      cases sg with
      | i n => simp [isStructure] at h
      | s k =>
        cases hk : objGet fs k with
        | none => simp [isStructure, hk] at h
        | some child =>
          simp only [isStructure, Bool.not_true, not_true_eq_false, if_false, hk] at h
          cases hin : traverseAux full (i + 1) rest child with
          | error e => rw [hin] at h; cases h
          | ok es' =>
            rw [hin] at h
            cases h
            exact ⟨child, es', by simp [stepOk, hk], hin, rfl⟩
    | null => simp [isStructure] at h
    | bool b => simp [isStructure] at h
    | num m => simp [isStructure] at h
    | str s => simp [isStructure] at h
  · rintro ⟨child, es', hstep, hrec, rfl⟩
    unfold traverseAux
    cases cur with
    | arr elems =>
      cases sg with
      | s str => simp [stepOk] at hstep
      | i n =>
        simp only [stepOk] at hstep
        by_cases hb : n ≥ (elems.length : Int) ∨ n < 0
        · simp [hb] at hstep
        · simp only [hb, not_false_eq_true, if_true, if_false, reduceIte] at hstep
          cases hstep
          simp only [List.getD_eq_getElem?_getD] at hrec
          simp [isStructure, hb, hrec]
    | obj fs =>
      cases sg with
      | i n => simp [stepOk] at hstep
      | s k =>
        simp only [stepOk] at hstep
        simp [isStructure, hstep, hrec]
    | null => simp [stepOk] at hstep
    | bool b => simp [stepOk] at hstep
    | num m => simp [stepOk] at hstep
    | str s => simp [stepOk] at hstep

/-- The entries produced by a successful traversal do not depend on the
message-only parameters `full` and `i`. -/
lemma traverseAux_irrel :
    ∀ (rest : List Seg) {cur : Json} (full full' : List Seg) (i i' : Nat) {es : List Entry},
      traverseAux full i rest cur = .ok es → traverseAux full' i' rest cur = .ok es := by
  intro rest
  induction rest with
  | nil =>
    intro cur full full' i i' es h
    simp only [traverseAux] at h ⊢
    exact h
  | cons sg rst ih =>
    intro cur full full' i i' es h
    obtain ⟨child, es', hstep, hrec, rfl⟩ := traverseAux_cons_iff.mp h
    exact traverseAux_cons_iff.mpr ⟨child, es', hstep, ih full full' (i + 1) (i' + 1) hrec, rfl⟩

/-- A successful traversal yields one entry per segment. -/
lemma traverseAux_length :
    ∀ (rest : List Seg) {cur : Json} {full : List Seg} {i : Nat} {es : List Entry},
      traverseAux full i rest cur = .ok es → es.length = rest.length := by
  intro rest
  induction rest with
  | nil =>
    intro cur full i es h
    simp only [traverseAux] at h
    injection h with h
    subst h
    rfl
  | cons sg rst ih =>
    intro cur full i es h
    obtain ⟨child, es', hstep, hrec, rfl⟩ := traverseAux_cons_iff.mp h
    simp [ih hrec]

/-- A successful traversal restricts to every prefix. -/
lemma traverseAux_take :
    ∀ (rest : List Seg) (d : Nat) {cur : Json} {full : List Seg} {i : Nat} {es : List Entry},
      traverseAux full i rest cur = .ok es →
      traverseAux full i (rest.take d) cur = .ok (es.take d) := by
  intro rest
  induction rest with
  | nil =>
    intro d cur full i es h
    simp only [traverseAux] at h
    injection h with h
    subst h
    simp [traverseAux]
  | cons sg rst ih =>
    intro d cur full i es h
    obtain ⟨child, es', hstep, hrec, rfl⟩ := traverseAux_cons_iff.mp h
    cases d with
    | zero => simp [traverseAux]
    | succ e =>
      rw [List.take_succ_cons, List.take_succ_cons]
      exact traverseAux_cons_iff.mpr ⟨child, es'.take e, hstep, ih e hrec, rfl⟩

/-- The last element of a `take (d+1)` prefix is the element at index `d`. -/
lemma take_succ_getLastD {α : Type} (l : List α) (d : Nat) (dflt : α) (hd : d < l.length) :
    (l.take (d + 1)).getLastD dflt = l.getD d dflt := by
  rw [List.getLastD_eq_getLast?, List.getLast?_eq_getElem?, List.getD_eq_getElem?_getD]
  have hlen : (l.take (d + 1)).length = d + 1 := by
    simp only [List.length_take]
    omega
  rw [hlen]
  simp only [Nat.add_sub_cancel]
  rw [List.getElem?_take]
  simp

/-- `getLastD` only looks at the default's second component through `.2`
when the list is empty. -/
lemma getLastD_snd_eq (l : List Entry) (d1 d2 : Entry) (h : d1.2 = d2.2) :
    (l.getLastD d1).2 = (l.getLastD d2).2 := by
  cases l with
  | nil => exact h
  | cons x xs => rw [List.getLastD_cons, List.getLastD_cons]

/-- `getLastD` distributes over append. -/
lemma getLastD_append {α : Type} (l₁ l₂ : List α) (d : α) :
    (l₁ ++ l₂).getLastD d = l₂.getLastD (l₁.getLastD d) := by
  induction l₁ generalizing d with
  | nil => rfl
  | cons x xs ih => rw [List.cons_append, List.getLastD_cons, List.getLastD_cons, ih]

/-- Successful traversals compose over appended segment lists, continuing
from the value of the last entry. -/
lemma traverseAux_append :
    ∀ (a : List Seg) {cur : Json} {full : List Seg} {i : Nat} {es₁ : List Entry},
      traverseAux full i a cur = .ok es₁ →
      ∀ {b : List Seg} {f' : List Seg} {i' : Nat} {es₂ : List Entry},
        traverseAux f' i' b (es₁.getLastD (none, cur)).2 = .ok es₂ →
        ∀ (f'' : List Seg) (i'' : Nat),
          traverseAux f'' i'' (a ++ b) cur = .ok (es₁ ++ es₂) := by
  intro a
  induction a with
  | nil =>
    intro cur full i es₁ h b f' i' es₂ hb f'' i''
    simp only [traverseAux] at h
    cases h
    simpa using traverseAux_irrel b f' f'' i' i'' hb
  | cons sg a' ih =>
    intro cur full i es₁ h b f' i' es₂ hb f'' i''
    obtain ⟨child, es', hstep, hrec, rfl⟩ := traverseAux_cons_iff.mp h
    have hsnd : (es'.getLastD ((some sg, child) : Entry)).2
        = (es'.getLastD ((none, child) : Entry)).2 :=
      getLastD_snd_eq es' _ _ rfl
    rw [List.getLastD_cons, hsnd] at hb
    exact traverseAux_cons_iff.mpr
      ⟨child, es' ++ es₂, hstep, ih hrec hb f'' (i'' + 1), rfl⟩

/-- `get` on a `take`-prefix of a successfully traversed pointer returns the
value of the entry at that depth. -/
lemma get_of_traverse_take {segs : List Seg} {root : Json} {es : List Entry} (d : Nat)
    (h : traverse segs root = .ok es) (hd : d < es.length) :
    get (segs.take d) root = .ok ((es.getD d (none, root)).2) := by
  unfold traverse at h
  cases ha : traverseAux segs 0 segs root with
  | error e => rw [ha] at h; cases h
  | ok es₀ =>
    rw [ha] at h
    cases h
    have ht : traverseAux (segs.take d) 0 (segs.take d) root = .ok (es₀.take d) :=
      traverseAux_irrel _ segs (segs.take d) 0 0 (traverseAux_take segs d ha)
    unfold get traverse
    simp only [ht]
    have hcons : ((none, root) : Entry) :: es₀.take d
        = (((none, root) : Entry) :: es₀).take (d + 1) := by
      simp [List.take_succ_cons]
    rw [hcons, take_succ_getLastD _ d _ hd]

/-- `get` composes over appended pointers on success. -/
lemma get_append_ok {a b : List Seg} {root mid v : Json}
    (ha : get a root = .ok mid) (hb : get b mid = .ok v) :
    get (a ++ b) root = .ok v := by
  unfold get traverse at ha hb ⊢
  cases ha1 : traverseAux a 0 a root with
  | error e => simp [ha1] at ha
  | ok es₁ =>
    simp only [ha1, Except.ok.injEq] at ha
    cases hb1 : traverseAux b 0 b mid with
    | error e => simp [hb1] at hb
    | ok es₂ =>
      simp only [hb1, Except.ok.injEq] at hb
      rw [List.getLastD_cons] at ha
      rw [List.getLastD_cons] at hb
      have hb1' : traverseAux b 0 b ((es₁.getLastD ((none, root) : Entry)).2) = .ok es₂ := by
        rw [ha]; exact hb1
      have happ := traverseAux_append a ha1 hb1' (a ++ b) 0
      simp only [happ, Except.ok.injEq]
      rw [List.getLastD_cons, getLastD_append]
      rw [← hb]
      exact getLastD_snd_eq es₂ _ _ ha

/-- C10: for a non-key, zero-offset relative pointer, whenever `get`
(through the ancestor stack) succeeds, the purely syntactic `resolve`
succeeds as well, and `JsonPointer.get` at the resolved absolute pointer
returns the same value. -/
theorem C10_get_agrees_with_resolve :
    ∀ (rp base : List Seg) (root v : Json),
      isKeyPointer rp = false →
      getParentIndexOffset rp = 0 →
      (∀ sg ∈ rp.tail, NormalSeg sg) →
      (∀ sg ∈ base, NormalSeg sg) →
      rpGetV1 rp base root = .ok (.val v) →
      ∃ abs, rpResolve rp base = .ok abs ∧ get abs root = .ok v := by
  intro rp base root v hkey hoff htail hbase hget
  unfold rpGetV1 at hget
  cases hst : getReferenceStackV1 rp base root with
  | error e => simp [hst] at hget
  | ok stack =>
    simp only [hst, hkey, Bool.false_eq_true, if_false] at hget
    simp only [fromList_normal htail] at hget
    cases hrem : get rp.tail (stack.getLastD ((none : Option Seg), root)).2 with
    | error e => simp only [hrem, reduceCtorEq] at hget
    | ok v' =>
      simp only [hrem, Except.ok.injEq, RVal.val.injEq] at hget
      subst hget
      unfold getReferenceStackV1 at hst
      cases htr : traverse base root with
      | error e => simp [htr] at hst
      | ok es =>
        simp only [htr] at hst
        by_cases h1 : getParentIndex rp ≥ es.length
        · simp [h1] at hst
        · simp only [h1, if_false] at hst
          simp only [hoff, ne_eq, not_true_eq_false, if_false, reduceIte] at hst
          injection hst with hst
          have hlen : es.length = base.length + 1 := by
            unfold traverse at htr
            cases ha : traverseAux base 0 base root with
            | error e => simp [ha] at htr
            | ok es₀ =>
              simp only [ha, Except.ok.injEq] at htr
              subst htr
              simp [traverseAux_length base ha]
          have hNle : getParentIndex rp ≤ base.length := by omega
          have hidx : es.length - getParentIndex rp - 1
              = base.length - getParentIndex rp := by omega
          have hd : base.length - getParentIndex rp < es.length := by omega
          have hpref := get_of_traverse_take (base.length - getParentIndex rp) htr hd
          have htop : stack.getLastD ((none : Option Seg), root)
              = es.getD (base.length - getParentIndex rp) ((none : Option Seg), root) := by
            rw [← hst, hidx, take_succ_getLastD es _ _ hd]
          refine ⟨base.take (base.length - getParentIndex rp) ++ rp.tail,
            rpResolve_ok hkey hoff htail hbase hNle, ?_⟩
          refine get_append_ok hpref ?_
          rw [← htop]
          exact hrem

/-- C10, witness: the spec's scenario — relative pointer `1/0` over base
`/foo/1` in `{foo:["bar","baz"]}` reads `"bar"`, and resolving gives
`/foo/0` whose absolute `get` also reads `"bar"`. -/
theorem C10_get_agrees_with_resolve_witness :
    ∃ abs, rpResolve [Seg.i 1, Seg.i 0] [Seg.s "foo", Seg.i 1] = .ok abs
      ∧ get abs (Json.obj [("foo", Json.arr [Json.str "bar", Json.str "baz"])])
          = .ok (Json.str "bar") :=
  C10_get_agrees_with_resolve [Seg.i 1, Seg.i 0] [Seg.s "foo", Seg.i 1]
    (Json.obj [("foo", Json.arr [Json.str "bar", Json.str "baz"])]) (Json.str "bar")
    rfl rfl
    (by
      intro sg hsg
      simp only [List.tail_cons, List.mem_singleton] at hsg
      subst hsg
      exact ⟨by decide, by decide⟩)
    (by
      intro sg hsg
      simp only [List.mem_cons, List.mem_singleton] at hsg
      rcases hsg with h | h | h
      · subst h; exact (by decide : isDigitsStr "foo" = false)
      · subst h; exact ⟨by decide, by decide⟩
      · simp at h)
    rfl

end JPtr
